import Mathlib

/-
Verification development for the AIConvoySystem route planner.

The embedding translates the Python modules rules_engine.py, filter_graph.py,
routing_engine.py and plan_route.py into Lean:
 - Python floats are modelled as rationals; a JSON attribute value that the
   code feeds to float() is modelled by JVal: either a numeric value (numbers
   and numeric strings, which float() accepts) or a non-numeric value (on
   which float() raises).  Optional record fields are Option-valued, matching
   dict.get.
 - Code that can raise a Python exception is modelled in the Except monad;
   try/except blocks that swallow the exception are modelled by matching on
   the Option of the converted value.
 - traffic_level is modelled as an integer category (the data model declares
   it a small non-negative integer); the int() coercion of exotic values is
   outside the scope of the checked claims.
 - networkx structures are modelled by explicit edge lists; G.nodes is the
   list of declared nodes plus all segment endpoints (add_edge inserts its
   endpoints).  Where nx keeps one directed edge per ordered pair with
   last-write-wins attribute updates, lookup takes the last matching segment.
 - nx.all_pairs_dijkstra_path_length is modelled as the minimum distance over
   duplicate-free paths, which is the quantity Dijkstra computes for the
   non-negative weights it assumes; nx.astar_path is modelled by an explicit
   best-first search returning some path when one exists.  The claims checked
   here do not depend on which concrete path the library search returns.
-/

deriving instance DecidableEq for Except

/-- A JSON attribute value as seen by float(): either numeric or not. -/
inductive JVal where
  | num (q : ℚ)
  | nonNum
deriving DecidableEq

/-- Successful float() conversion of an optional attribute: none when the
attribute is missing or non-numeric. -/
def toNumF : Option JVal → Option ℚ
  | some (JVal.num q) => some q
  | _ => none

/-- Total numeric reading used on records whose field is known to be numeric
or absent: absent reads as the 0 default. -/
def numD (v : Option JVal) : ℚ :=
  (toNumF v).getD 0

/-- Python float(record.get(key, d)): default when missing, error when the
present value is non-numeric. -/
def getFloatD (v : Option JVal) (d : ℚ) : Except String ℚ :=
  match v with
  | none => .ok d
  | some (JVal.num q) => .ok q
  | some JVal.nonNum => .error "ValueError"

/-- The field is absent or carries a numeric value (float() would not raise). -/
def NumOrAbsent (v : Option JVal) : Prop :=
  v ≠ some JVal.nonNum

instance (v : Option JVal) : Decidable (NumOrAbsent v) := by
  unfold NumOrAbsent; infer_instance

/-- A convoy record (route request), fields as read by the Python code. -/
structure Convoy where
  convoy_id : Option String := none
  origin : Option String := none
  destination : Option String := none
  convoy_class : Option String := none
  weight_tons : Option JVal := none
  height_m : Option JVal := none
  width_m : Option JVal := none
  priority_class : Option String := none
  special_flags : Option (List String) := none
  priority_score : Option JVal := none
deriving DecidableEq

/-- A segment record.  rejection_reason models the _rejection_reason key the
filter adds on excluded copies; it is none on input segments. -/
structure Segment where
  segment_id : Option String := none
  from_node : String
  to_node : String
  distance_km : Option JVal := none
  base_time_min : Option JVal := none
  risk_level : Option JVal := none
  traffic_level : Option ℤ := none
  civil_impact : Option String := none
  max_load_tons : Option JVal := none
  max_height_m : Option JVal := none
  max_width_m : Option JVal := none
  allowed_convoy_classes : Option (List String) := none
  is_blocked : Bool := false
  weather_sensitivity : Option JVal := none
  weather_blocked : Bool := false
  rejection_reason : Option String := none
deriving DecidableEq

/-- A node record; attributes beyond the identifier are opaque to the core. -/
structure GNode where
  node_id : String
deriving DecidableEq

/-- A graph.json document. -/
structure Graph where
  nodes : List GNode := []
  segments : List Segment := []
deriving DecidableEq

/-- TRAFFIC_PENALTY dict lookup with default 0. -/
def trafficPenalty (t : ℤ) : ℚ :=
  if t = 0 then 0 else if t = 1 then 5 else if t = 2 then 15 else 0

/-- CIVIL_IMPACT_PENALTY dict lookup with default 0.0. -/
def civilPenalty (c : String) : ℚ :=
  if c = "Low" then 0 else if c = "Medium" then 5 else if c = "High" then 15 else 0

/-- Rule 2 condition: both fields present and float-convertible and
weight strictly exceeds the limit (conversion failures are swallowed). -/
def loadExceeded (c : Convoy) (s : Segment) : Bool :=
  match toNumF c.weight_tons, toNumF s.max_load_tons with
  | some w, some m => decide (m < w)
  | _, _ => false

/-- Rule 3a condition, same shape as the load rule. -/
def heightExceeded (c : Convoy) (s : Segment) : Bool :=
  match toNumF c.height_m, toNumF s.max_height_m with
  | some h, some m => decide (m < h)
  | _, _ => false

/-- Rule 3b condition, same shape as the load rule. -/
def widthExceeded (c : Convoy) (s : Segment) : Bool :=
  match toNumF c.width_m, toNumF s.max_width_m with
  | some w, some m => decide (m < w)
  | _, _ => false

/-- Rule 4 condition: convoy class (default Light) not in the allowed set
(default Light, Medium, Heavy). -/
def classNotAllowed (c : Convoy) (s : Segment) : Bool :=
  decide (c.convoy_class.getD "Light" ∉
    s.allowed_convoy_classes.getD ["Light", "Medium", "Heavy"])

/-- Rule 5 trigger: risk_level present, numeric and at least RISK_HARD_LIMIT
(0.95); conversion failures are swallowed. -/
def riskCutoff (s : Segment) : Bool :=
  match toNumF s.risk_level with
  | some r => decide ((95 : ℚ) / 100 ≤ r)
  | none => false

/-- Emergency override condition: priority_class is P1 and special_flags is
truthy (non-empty) and contains the medical flag. -/
def medicalOverride (c : Convoy) : Bool :=
  decide (c.priority_class = some "P1") &&
    (match c.special_flags with
     | some fs => !fs.isEmpty && decide ("medical" ∈ fs)
     | none => false)

/-- apply_hard_rules from rules_engine.py.  Returns ok (allowed, reason); the
error case models the uncaught TypeError in rule 6 when weather_sensitivity
holds a non-numeric value (that comparison is not guarded by try/except). -/
def apply_hard_rules (c : Convoy) (s : Segment) : Except String (Bool × Option String) :=
  if s.is_blocked then .ok (false, some "blocked_segment")
  else if loadExceeded c s then .ok (false, some "load_capacity_exceeded")
  else if heightExceeded c s then .ok (false, some "height_clearance")
  else if widthExceeded c s then .ok (false, some "width_clearance")
  else if classNotAllowed c s then .ok (false, some "convoy_class_not_allowed")
  else if riskCutoff s then
    if medicalOverride c then .ok (true, some "emergency_medical_override")
    else .ok (false, some "high_risk_cutoff")
  else
    match s.weather_sensitivity with
    | some JVal.nonNum => .error "TypeError"
    | some (JVal.num q) =>
        if (1 : ℚ) / 2 ≤ q ∧ s.weather_blocked = true then .ok (false, some "weather_blocked")
        else .ok (true, none)
    | none => .ok (true, none)

/-- Scale applied to the civil-impact base penalty by priority class. -/
def priorityScale (p : String) : ℚ :=
  if p = "P1" then 1 / 5 else if p = "P2" then 3 / 5 else 1

/-- apply_soft_rules from rules_engine.py: the additive weight modifier.
float(risk_level) is unguarded there, hence the Except. -/
def apply_soft_rules (c : Convoy) (s : Segment) : Except String ℚ :=
  match getFloatD s.risk_level 0 with
  | .error e => .error e
  | .ok riskLevel =>
      let w1 : ℚ := trafficPenalty (s.traffic_level.getD 0)
      let w2 : ℚ := w1 + riskLevel * 20
      let basePen : ℚ := civilPenalty (s.civil_impact.getD "Low")
      let w3 : ℚ := w2 + basePen * priorityScale (c.priority_class.getD "P3")
      let flags : List String := c.special_flags.getD []
      let w4 : ℚ := if "medical" ∈ flags then w3 - 10 else w3
      .ok (if w4 < 0 then 0 else w4)

/-- segment_allowed_for_convoy: convenience wrapper over the hard rules. -/
def segment_allowed_for_convoy (c : Convoy) (s : Segment) : Except String (Bool × Option String) :=
  apply_hard_rules c s

/-- edge_cost_for_convoy from routing_engine.py:
max(0.1, base_time_min + soft_modifier - priority_allowance). -/
def edge_cost_for_convoy (c : Convoy) (attrs : Segment) : Except String ℚ :=
  match getFloatD attrs.base_time_min 0 with
  | .error e => .error e
  | .ok base =>
      match apply_soft_rules c attrs with
      | .error e => .error e
      | .ok soft =>
          match getFloatD c.priority_score 0 with
          | .error e => .error e
          | .ok ps => .ok (max (1 / 10) (base + soft - ps / 100 * 8))

/-- Soft penalty as a total function of well-formed records, spelled the way
the specification states it: traffic lookup plus risk times 20 plus the
civil-impact base penalty scaled by priority class, minus a flat 10 for
medical convoys, clamped to be non-negative. -/
def softSpec (c : Convoy) (s : Segment) : ℚ :=
  max 0 (trafficPenalty (s.traffic_level.getD 0) + numD s.risk_level * 20 +
    civilPenalty (s.civil_impact.getD "Low") * priorityScale (c.priority_class.getD "P3") -
    (if "medical" ∈ c.special_flags.getD [] then 10 else 0))

/-- Per-edge cost as a total function of well-formed records, spelled the way
the specification states it. -/
def edgeCostSpec (c : Convoy) (s : Segment) : ℚ :=
  max (1 / 10) (numD s.base_time_min + softSpec c s - numD c.priority_score / 100 * 8)

/-- Filter log record built by filter_graph_for_convoy. -/
structure FilterLog where
  convoy_id : String
  allowed_count : ℕ
  excluded_count : ℕ
  excluded_segments : List Segment
deriving DecidableEq

/-- Loop body of filter_graph_for_convoy: split the segment list into the
allowed segments and the excluded annotated copies, in input order; the first
rule-evaluation error aborts the run. -/
def filterSegs (c : Convoy) : List Segment → Except String (List Segment × List Segment)
  | [] => .ok ([], [])
  | seg :: rest =>
      match segment_allowed_for_convoy c seg with
      | .error e => .error e
      | .ok (a, r) =>
          match filterSegs c rest with
          | .error e => .error e
          | .ok (al, ex) =>
              if a then .ok (seg :: al, ex)
              else .ok (al, { seg with rejection_reason := r } :: ex)

/-- filter_graph_for_convoy from filter_graph.py: nodes are copied as is,
segments are partitioned, and the log reports the two counts. -/
def filter_graph_for_convoy (c : Convoy) (g : Graph) : Except String (Graph × FilterLog) :=
  match filterSegs c g.segments with
  | .error e => .error e
  | .ok (al, ex) =>
      .ok ({ nodes := g.nodes, segments := al },
           { convoy_id := c.convoy_id.getD "unknown",
             allowed_count := al.length,
             excluded_count := ex.length,
             excluded_segments := ex })

/-- Allowed flag of a segment evaluation, as a total Bool (false when the
evaluation raises; only used under a hypothesis that the run succeeded). -/
def allowedB (c : Convoy) (s : Segment) : Bool :=
  match segment_allowed_for_convoy c s with
  | .ok (b, _) => b
  | .error _ => false

/-- Rejection reason of a segment evaluation as a total function. -/
def reasonOf (c : Convoy) (s : Segment) : Option String :=
  match segment_allowed_for_convoy c s with
  | .ok (_, r) => r
  | .error _ => none

/-- Reverse copy of a segment made by build_graph: endpoints swapped and the
derived reverse identifier. -/
def revSeg (s : Segment) : Segment :=
  { s with
    segment_id := some ((s.segment_id.getD (s.from_node ++ "-" ++ s.to_node)) ++ "_rev"),
    from_node := s.to_node,
    to_node := s.from_node }

/-- build_graph from routing_engine.py: the directed edge list, one forward
and one reverse edge per segment, in insertion order. -/
def build_graph (g : Graph) : List Segment :=
  g.segments.flatMap (fun s => [s, revSeg s])

/-- Node set of the built graph: declared nodes plus all segment endpoints
(nx add_edge inserts missing endpoint nodes).  Membership is what matters. -/
def graphNodes (g : Graph) : List String :=
  g.nodes.map (fun n => n.node_id) ++ g.segments.flatMap (fun s => [s.from_node, s.to_node])

/-- compute_min_time_per_km from routing_engine.py: minimum of
base_time_min / distance_km over segments with positive distance, skipping
segments whose conversion raises; 1.0 when no segment qualifies. -/
def compute_min_time_per_km (g : Graph) : ℚ :=
  let step : Option ℚ → Segment → Option ℚ := fun acc s =>
    match getFloatD s.distance_km 0, getFloatD s.base_time_min 0 with
    | .ok d, .ok t =>
        if 0 < d then
          match acc with
          | none => some (t / d)
          | some m => if t / d < m then some (t / d) else some m
        else acc
    | _, _ => acc
  match g.segments.foldl step none with
  | some m => m
  | none => 1

/-- Directed edge of the distance graph used for the heuristic table. -/
structure DEdge where
  src : String
  dst : String
  w : ℚ
deriving DecidableEq

/-- Edge list of the distance graph built by precompute_shortest_distance_km:
both directions per segment with the distance_km weight; float() on a
non-numeric distance raises there (no try/except). -/
def buildDistEdges : List Segment → Except String (List DEdge)
  | [] => .ok []
  | s :: rest =>
      match getFloatD s.distance_km 0 with
      | .error e => .error e
      | .ok d =>
          match buildDistEdges rest with
          | .error e => .error e
          | .ok es => .ok (⟨s.from_node, s.to_node, d⟩ :: ⟨s.to_node, s.from_node, d⟩ :: es)

/-- Total distance of a path in the distance graph. -/
def pathDist (p : List DEdge) : ℚ :=
  (p.map (fun e => e.w)).sum

/-- All duplicate-free paths from u to v whose visited nodes are drawn from
avail.  This enumerates exactly the candidate paths over which the all-pairs
Dijkstra distance is the minimum (for the non-negative weights it assumes). -/
def simplePaths (E : List DEdge) (avail : List String) (u v : String) : List (List DEdge) :=
  if u = v then [[]]
  else if h : u ∈ avail then
    (E.filter (fun e => e.src == u && decide (e.dst ∈ avail.erase u))).flatMap
      (fun e => (simplePaths E (avail.erase u) e.dst v).map (fun p => e :: p))
  else []
termination_by avail.length
decreasing_by
  simp_wf
  rw [List.length_erase_of_mem h]
  exact Nat.sub_lt (List.length_pos.mpr (List.ne_nil_of_mem h)) Nat.one_pos

/-- Minimum of a list of rationals, none when empty. -/
def minQ : List ℚ → Option ℚ
  | [] => none
  | x :: xs => some (xs.foldl min x)

/-- Entry of the all-pairs shortest-distance table: shortest distance_km from
u to v, none when v is unreachable (the table omits unreachable pairs). -/
def shortestKm (dE : List DEdge) (avail : List String) (u v : String) : Option ℚ :=
  minQ ((simplePaths dE avail u v).map pathDist)

/-- Search heuristic from routing_engine.py: min_time_per_km times the tabled
shortest distance to the destination, 0 when the destination is missing from
the row (unreachable). -/
def heuristicVal (dE : List DEdge) (avail : List String) (mtpk : ℚ) (dest u : String) : ℚ :=
  match shortestKm dE avail u dest with
  | none => 0
  | some k => mtpk * k

/-- Per-convoy cost annotation of the built edges, in edge order: blocked
edges get infinite cost, the rest the edge_cost_for_convoy value. -/
def annotateCosts (c : Convoy) : List Segment → Except String (List (Segment × WithTop ℚ))
  | [] => .ok []
  | e :: rest =>
      if e.is_blocked then
        match annotateCosts c rest with
        | .error er => .error er
        | .ok ws => .ok ((e, (⊤ : WithTop ℚ)) :: ws)
      else
        match edge_cost_for_convoy c e with
        | .error er => .error er
        | .ok q =>
            match annotateCosts c rest with
            | .error er => .error er
            | .ok ws => .ok ((e, (q : WithTop ℚ)) :: ws)

/-- Frontier entry of the best-first search: f value (g plus heuristic),
g value (cost so far), and the reversed node path (head is current node). -/
structure AEntry where
  fCost : WithTop ℚ
  gCost : WithTop ℚ
  path : List String
deriving DecidableEq

/-- Remove an entry with minimal f value (first such entry on ties, matching
the heap insertion-order tie break). -/
def popMin : List AEntry → Option (AEntry × List AEntry)
  | [] => none
  | x :: xs =>
      match popMin xs with
      | none => some (x, [])
      | some (m, rest) =>
          if x.fCost ≤ m.fCost then some (x, xs) else some (m, x :: rest)

/-- Best-first search loop modelling nx.astar_path: expand the frontier entry
with least f, stop when the destination is popped, skip already-expanded
nodes; none models NetworkXNoPath. -/
def astarLoop (E : List (Segment × WithTop ℚ)) (h : String → ℚ) (dest : String) :
    ℕ → List AEntry → List String → Option (List String)
  | 0, _, _ => none
  | Nat.succ fuel, fr, visited =>
      match popMin fr with
      | none => none
      | some (ent, rest) =>
          match ent.path with
          | [] => none
          | u :: _ =>
              if u = dest then some ent.path.reverse
              else if u ∈ visited then astarLoop E h dest fuel rest visited
              else
                let nexts := (E.filter (fun ew => ew.1.from_node == u)).map (fun ew =>
                  { fCost := ent.gCost + ew.2 + ((h ew.1.to_node : ℚ) : WithTop ℚ),
                    gCost := ent.gCost + ew.2,
                    path := ew.1.to_node :: ent.path })
                astarLoop E h dest fuel (rest ++ nexts) (u :: visited)

/-- nx.astar_path over the annotated edges: none models NetworkXNoPath.  The
fuel exceeds the number of entries the loop can ever insert. -/
def astar (E : List (Segment × WithTop ℚ)) (h : String → ℚ) (o d : String) (fuel : ℕ) :
    Option (List String) :=
  astarLoop E h d fuel [{ fCost := ((h o : ℚ) : WithTop ℚ), gCost := 0, path := [o] }] []

/-- Lookup of G[u][v] in the annotated edge list: the last matching edge, as
nx attribute updates let the last inserted segment win. -/
def lookupEdge (ae : List (Segment × WithTop ℚ)) (u v : String) :
    Option (Segment × WithTop ℚ) :=
  (ae.filter (fun ew => ew.1.from_node == u && ew.1.to_node == v)).getLast?

/-- Per-segment route record built by the metrics loop of compute_route. -/
structure RouteSeg where
  segment_id : String
  fromNode : String
  toNode : String
  base_time_min : ℚ
  computed_cost : WithTop ℚ
  risk_level : ℚ
deriving DecidableEq

/-- Metrics loop of compute_route over the consecutive node pairs of the
returned path: collects the route segments and accumulates eta and risk. -/
def collectRoute (ae : List (Segment × WithTop ℚ)) :
    List (String × String) → Except String (List RouteSeg × WithTop ℚ × ℚ)
  | [] => .ok ([], 0, 0)
  | (u, v) :: rest =>
      match lookupEdge ae u v with
      | none => .error "KeyError"
      | some ew =>
          match getFloatD ew.1.base_time_min 0 with
          | .error e => .error e
          | .ok segBase =>
              match getFloatD ew.1.risk_level 0 with
              | .error e => .error e
              | .ok segRisk =>
                  match collectRoute ae rest with
                  | .error e => .error e
                  | .ok (segs, eta, risk) =>
                      .ok ({ segment_id := ew.1.segment_id.getD (u ++ "-" ++ v),
                             fromNode := u, toNode := v,
                             base_time_min := segBase,
                             computed_cost := ew.2,
                             risk_level := segRisk } :: segs,
                           ew.2 + eta, segRisk + risk)

/-- Python round(x, k) on exact rationals.  The half-to-even tie rule of
float rounding is immaterial to the checked claims, which compare two
applications of the same rounding. -/
def roundTo (k : ℕ) (q : ℚ) : ℚ :=
  (round (q * (10 : ℚ) ^ k) : ℤ) / (10 : ℚ) ^ k

/-- Successful route result of compute_route.  The echoed marshalling fields
(convoy_id, origin, destination) carry no checked content and are omitted. -/
structure RouteOk where
  route_nodes : List String
  route_segments : List RouteSeg
  eta_minutes : WithTop ℚ
  total_risk : ℚ
  cost_breakdown : List (String × WithTop ℚ × ℚ)
deriving DecidableEq

/-- Result dict of compute_route: a failure with a reason code or a success
record.  Both are ordinary return values, not exceptions. -/
inductive RouteResult where
  | failure (reason : String)
  | success (r : RouteOk)
deriving DecidableEq

/-- compute_route from routing_engine.py: endpoint validation, heuristic
artifacts computed from the graph argument, per-convoy cost annotation,
search, and the metrics loop. -/
def compute_route (c : Convoy) (g : Graph) : Except String RouteResult :=
  let edges := build_graph g
  let ns := graphNodes g
  match c.origin, c.destination with
  | some o, some d =>
      if o ∈ ns ∧ d ∈ ns then
        match buildDistEdges g.segments with
        | .error e => .error e
        | .ok dE =>
            let mtpk := compute_min_time_per_km g
            let hfun : String → ℚ := fun u => heuristicVal dE ns.dedup mtpk d u
            match annotateCosts c edges with
            | .error e => .error e
            | .ok ae =>
                match astar ae hfun o d (1 + (ns.length + 1) * (edges.length + 1)) with
                | none => .ok (RouteResult.failure "no_path")
                | some pn =>
                    match collectRoute ae (pn.zip pn.tail) with
                    | .error e => .error e
                    | .ok (segs, eta, risk) =>
                        .ok (RouteResult.success {
                          route_nodes := pn,
                          route_segments := segs,
                          eta_minutes := WithTop.map (roundTo 2) eta,
                          total_risk := roundTo 3 risk,
                          cost_breakdown :=
                            segs.map (fun rs => (rs.segment_id, rs.computed_cost, rs.risk_level)) })
      else .ok (RouteResult.failure "invalid_origin_or_destination")
  | _, _ => .ok (RouteResult.failure "invalid_origin_or_destination")

/-- Merged plan artifact of plan_route.py. -/
structure PlanArtifact where
  convoy_id : String
  filter_log : FilterLog
  route_result : RouteResult
deriving DecidableEq

/-- plan_for_convoy from plan_route.py: filter the full graph, run
compute_route on the filtered graph, merge both into one artifact. -/
def plan_for_convoy (c : Convoy) (g : Graph) : Except String PlanArtifact :=
  match filter_graph_for_convoy c g with
  | .error e => .error e
  | .ok (fg, lg) =>
      match compute_route c fg with
      | .error e => .error e
      | .ok rr =>
          .ok { convoy_id := c.convoy_id.getD "convoy", filter_log := lg, route_result := rr }

/-- Value of the min_time_per_km heuristic artifact actually computed during
a plan_for_convoy run: plan_for_convoy hands the filtered graph to
compute_route, which computes compute_min_time_per_km of its graph argument. -/
def plan_search_min_time_per_km (c : Convoy) (g : Graph) : Except String ℚ :=
  match filter_graph_for_convoy c g with
  | .error e => .error e
  | .ok (fg, _) => .ok (compute_min_time_per_km fg)

/-- Whether a segment list is a chain of edges of E from o to d. -/
def isChain (E : List Segment) : String → String → List Segment → Bool
  | o, d, [] => o == d
  | o, d, e :: p => decide (e ∈ E) && (e.from_node == o) && isChain E e.to_node d p

/-- Node sequence visited by a chain starting at o. -/
def chainNodes (o : String) (p : List Segment) : List String :=
  o :: p.map (fun e => e.to_node)

/-- Whether a distance-edge list is a chain of edges of E from o to d. -/
def isDChain (E : List DEdge) : String → String → List DEdge → Bool
  | o, d, [] => o == d
  | o, d, e :: p => decide (e ∈ E) && (e.src == o) && isDChain E e.dst d p

/-- Node sequence visited by a distance chain starting at o. -/
def dnodes (o : String) (p : List DEdge) : List String :=
  o :: p.map (fun e => e.dst)

/-- Distance-graph edge corresponding to a built cost edge. -/
def toD (s : Segment) : DEdge :=
  ⟨s.from_node, s.to_node, numD s.distance_km⟩

/-- Reversed node path validity: the list read backwards is a walk of E
starting at o (head of the list is the current node). -/
def revPathOk (E : List (Segment × WithTop ℚ)) (o : String) : List String → Bool
  | [] => false
  | [u] => u == o
  | v :: u :: rest =>
      (E.any (fun ew => ew.1.from_node == u && ew.1.to_node == v)) && revPathOk E o (u :: rest)

/-- Fixture: a 10 km, 10 min segment from A to B. -/
def segAB : Segment :=
  { segment_id := some "S1", from_node := "A", to_node := "B",
    distance_km := some (JVal.num 10), base_time_min := some (JVal.num 10) }

/-- Fixture graph for the heuristic counterexample: two nodes, one segment. -/
def gHeu : Graph := { nodes := [⟨"A"⟩, ⟨"B"⟩], segments := [segAB] }

/-- Fixture convoy with the maximal priority allowance. -/
def cHeu : Convoy :=
  { origin := some "A", destination := some "B", priority_score := some (JVal.num 100) }

/-- Fixture: the distance edges of gHeu. -/
def dEHeu : List DEdge := [⟨"A", "B", 10⟩, ⟨"B", "A", 10⟩]

/-- Fixture: a blocked fast segment (ratio one half) from A to B. -/
def segBlk : Segment :=
  { segment_id := some "SB", from_node := "A", to_node := "B",
    distance_km := some (JVal.num 10), base_time_min := some (JVal.num 5), is_blocked := true }

/-- Fixture: an open slow segment (ratio two) from A to B. -/
def segSlow : Segment :=
  { segment_id := some "SO", from_node := "A", to_node := "B",
    distance_km := some (JVal.num 10), base_time_min := some (JVal.num 20) }

/-- Fixture graph for the artifact-source counterexample. -/
def gArt : Graph := { nodes := [⟨"A"⟩, ⟨"B"⟩], segments := [segBlk, segSlow] }

/-- Fixture: a segment with a non-numeric weather_sensitivity value. -/
def segWea : Segment :=
  { from_node := "A", to_node := "B", weather_sensitivity := some JVal.nonNum }

/-- Fixture graph for the successful route run: one 3 km, 7 min segment. -/
def gRun : Graph :=
  { nodes := [⟨"A"⟩, ⟨"B"⟩],
    segments := [{ segment_id := some "S1", from_node := "A", to_node := "B",
                   distance_km := some (JVal.num 3), base_time_min := some (JVal.num 7) }] }

/-- Fixture convoy routed from A to B. -/
def cRun : Convoy := { origin := some "A", destination := some "B" }

/-- Fixture: the route record compute_route returns on cRun and gRun. -/
def runResult : RouteOk :=
  { route_nodes := ["A", "B"],
    route_segments := [{ segment_id := "S1", fromNode := "A", toNode := "B",
                         base_time_min := 7, computed_cost := ((7 : ℚ) : WithTop ℚ),
                         risk_level := 0 }],
    eta_minutes := ((7 : ℚ) : WithTop ℚ),
    total_risk := 0,
    cost_breakdown := [("S1", ((7 : ℚ) : WithTop ℚ), 0)] }

/-- Fixture graph with two isolated nodes and no segments. -/
def gIso : Graph := { nodes := [⟨"A"⟩, ⟨"B"⟩], segments := [] }

/-- Fixture: a bare A to B segment with every optional attribute absent. -/
def segPlain : Segment := { from_node := "A", to_node := "B" }

/-- Fixture: a segment that only admits Heavy convoys. -/
def segHeavyOnly : Segment :=
  { from_node := "A", to_node := "B", allowed_convoy_classes := some ["Heavy"] }

/-- Fixture: a segment at the hard risk threshold. -/
def segRisky : Segment :=
  { from_node := "A", to_node := "B", risk_level := some (JVal.num (95 / 100)) }

/-- Fixture: a P1 convoy carrying the medical flag. -/
def cP1med : Convoy := { priority_class := some "P1", special_flags := some ["medical"] }

/-- Fixture: a P2 convoy carrying the medical flag. -/
def cP2med : Convoy := { priority_class := some "P2", special_flags := some ["medical"] }

/-- Fixture: a 22 ton convoy. -/
def cHeavyLoad : Convoy := { weight_tons := some (JVal.num 22) }

/-- Fixture: a segment with a 20 ton limit that also bans the default class. -/
def segLoad20 : Segment :=
  { from_node := "A", to_node := "B", max_load_tons := some (JVal.num 20),
    allowed_convoy_classes := some ["Heavy"] }

/-- Fixture: a convoy with the maximal priority score and nothing else. -/
def cScore100 : Convoy := { priority_score := some (JVal.num 100) }

/-- Fixture: a penalty-free segment with a 30 minute base time. -/
def segBase30 : Segment :=
  { from_node := "A", to_node := "B", base_time_min := some (JVal.num 30) }

/-- Fixture: a convoy whose weight field holds a non-numeric value. -/
def cNonNumW : Convoy := { weight_tons := some JVal.nonNum }

/-- Fixture: a segment whose load limit holds a non-numeric value. -/
def segNonNumMax : Segment :=
  { from_node := "A", to_node := "B", max_load_tons := some JVal.nonNum }

/-- Fixture: a convoy whose origin X is not in any node set used here. -/
def cXB : Convoy := { origin := some "X", destination := some "B" }

/-- Fixture: the filtered graph an empty convoy obtains from gArt. -/
def gFiltArt : Graph := { nodes := gArt.nodes, segments := [segSlow] }

/-- Fixture: the filter log an empty convoy obtains from gArt. -/
def logArt : FilterLog :=
  { convoy_id := "unknown", allowed_count := 1, excluded_count := 1,
    excluded_segments := [{ segBlk with rejection_reason := some "blocked_segment" }] }

example : apply_hard_rules {} { from_node := "A", to_node := "B" } = .ok (true, none) := by with_unfolding_all decide
example : edge_cost_for_convoy cHeu segAB = .ok 2 := by with_unfolding_all decide
example : edgeCostSpec cHeu segAB = 2 := by with_unfolding_all decide
example : compute_min_time_per_km gArt = 1 / 2 := by with_unfolding_all decide
example : plan_search_min_time_per_km {} gArt = .ok 2 := by with_unfolding_all decide
example : buildDistEdges gHeu.segments = .ok dEHeu := by with_unfolding_all decide
example : heuristicVal dEHeu ["A", "B"] (compute_min_time_per_km gHeu) "B" "A" = 10 := by with_unfolding_all decide
example : (graphNodes gHeu).dedup = ["A", "B"] := by with_unfolding_all decide
example : apply_hard_rules {} segWea = .error "TypeError" := by with_unfolding_all decide
example : compute_route cRun gRun = .ok (.success runResult) := by with_unfolding_all decide
example : compute_route { origin := some "A", destination := some "B" } gIso =
    .ok (.failure "no_path") := by with_unfolding_all decide
example : compute_route { origin := some "X", destination := some "B" } gIso =
    .ok (.failure "invalid_origin_or_destination") := by with_unfolding_all decide

/-- Clamping at zero, written as in the code, equals the max with zero. -/
theorem clamp_eq_max (x : ℚ) : (if x < 0 then 0 else x) = max 0 x := by
  rcases lt_or_le x 0 with h | h
  · rw [if_pos h, max_eq_left h.le]
  · rw [if_neg (not_lt.mpr h), max_eq_right h]

/-- Conversion with default succeeds on a numeric-or-absent field and yields
the total reading. -/
theorem getFloatD_ok (v : Option JVal) (hv : NumOrAbsent v) :
    getFloatD v 0 = .ok (numD v) := by
  cases v with
  | none => rfl
  | some j =>
      cases j with
      | num q => rfl
      | nonNum => exact absurd rfl hv

/-- apply_soft_rules succeeds on a numeric-or-absent risk level and computes
exactly the specified soft penalty. -/
theorem apply_soft_rules_ok (c : Convoy) (s : Segment) (hr : NumOrAbsent s.risk_level) :
    apply_soft_rules c s = .ok (softSpec c s) := by
  simp only [apply_soft_rules, softSpec, getFloatD_ok s.risk_level hr]
  by_cases hm : "medical" ∈ c.special_flags.getD [] <;>
    simp only [hm, ite_true, ite_false] <;>
    rw [clamp_eq_max] <;>
    exact congrArg Except.ok (congrArg (max 0) (by ring))

/-- edge_cost_for_convoy succeeds on well-formed records and computes exactly
the specified cost. -/
theorem edge_cost_ok (c : Convoy) (s : Segment) (hb : NumOrAbsent s.base_time_min)
    (hr : NumOrAbsent s.risk_level) (hp : NumOrAbsent c.priority_score) :
    edge_cost_for_convoy c s = .ok (edgeCostSpec c s) := by
  unfold edge_cost_for_convoy edgeCostSpec
  rw [getFloatD_ok s.base_time_min hb, apply_soft_rules_ok c s hr,
    getFloatD_ok c.priority_score hp]

/-- Whenever edge_cost_for_convoy returns a value, the value is at least the
0.1 floor. -/
theorem edge_cost_floor (c : Convoy) (s : Segment) (q : ℚ)
    (h : edge_cost_for_convoy c s = .ok q) : 1 / 10 ≤ q := by
  unfold edge_cost_for_convoy at h
  rcases hb : getFloatD s.base_time_min 0 with e | base <;> rw [hb] at h
  · exact absurd h (by simp)
  rcases hs : apply_soft_rules c s with e | soft <;> rw [hs] at h
  · exact absurd h (by simp)
  rcases hp : getFloatD c.priority_score 0 with e | ps <;> rw [hp] at h
  · exact absurd h (by simp)
  have : q = max (1 / 10) (base + soft - ps / 100 * 8) := by
    exact (Except.ok.inj h).symm
  rw [this]
  exact le_max_left _ _

/-- C2.  Cost Model formula and floor: on every convoy and segment record
whose read numeric fields are numeric or absent, the per-edge cost equals
max(0.1, base_time_min + soft_penalty - (priority_score/100)*8) with the
soft penalty as specified (traffic lookup, risk times 20, civil-impact base
penalty scaled by priority class, flat 10 medical discount, clamped at 0
before the allowance is subtracted); every returned cost is at least 0.1;
and priority_score 100 on a penalty-free 30 minute segment yields 22. -/
theorem c2_cost_model :
    (∀ (c : Convoy) (s : Segment), NumOrAbsent s.base_time_min → NumOrAbsent s.risk_level →
      NumOrAbsent c.priority_score → edge_cost_for_convoy c s = .ok (edgeCostSpec c s)) ∧
    (∀ (c : Convoy) (s : Segment) (q : ℚ), edge_cost_for_convoy c s = .ok q → 1 / 10 ≤ q) ∧
    edge_cost_for_convoy cScore100 segBase30 = .ok 22 :=
  ⟨edge_cost_ok, edge_cost_floor, by with_unfolding_all decide⟩

/-- Witness for C2 at a concrete well-formed input. -/
theorem c2_cost_model_witness :
    edge_cost_for_convoy cHeu segAB = .ok (edgeCostSpec cHeu segAB) :=
  c2_cost_model.1 cHeu segAB (by with_unfolding_all decide) (by with_unfolding_all decide)
    (by with_unfolding_all decide)

/-- C4.  Rule order with short-circuit: a blocked segment is rejected with
blocked_segment whatever the other attributes are, and a comparable weight
overload is rejected with load_capacity_exceeded before the convoy-class
rule is consulted (no class hypothesis appears in the second part). -/
theorem c4_rule_order :
    (∀ (c : Convoy) (s : Segment), s.is_blocked = true →
      apply_hard_rules c s = .ok (false, some "blocked_segment")) ∧
    (∀ (c : Convoy) (s : Segment) (w m : ℚ), s.is_blocked = false →
      toNumF c.weight_tons = some w → toNumF s.max_load_tons = some m → m < w →
      apply_hard_rules c s = .ok (false, some "load_capacity_exceeded")) := by
  constructor
  · intro c s hb
    unfold apply_hard_rules
    rw [hb]
    rfl
  · intro c s w m hb hw hm hlt
    have hload : loadExceeded c s = true := by
      unfold loadExceeded
      rw [hw, hm]
      exact decide_eq_true hlt
    unfold apply_hard_rules
    rw [hb, hload]
    rfl

/-- Witness for C4: a blocked segment and an overweight convoy on a segment
that also bans its class. -/
theorem c4_rule_order_witness :
    apply_hard_rules {} segBlk = .ok (false, some "blocked_segment") ∧
    apply_hard_rules cHeavyLoad segLoad20 = .ok (false, some "load_capacity_exceeded") :=
  ⟨c4_rule_order.1 {} segBlk (by with_unfolding_all decide),
   c4_rule_order.2 cHeavyLoad segLoad20 22 20 (by with_unfolding_all decide)
     (by with_unfolding_all decide) (by with_unfolding_all decide)
     (by with_unfolding_all decide)⟩

/-- C5.  Emergency medical override: on a segment that passes the blocked,
load, height, width and class rules and triggers the risk cutoff, the result
is the emergency_medical_override allowance exactly when the convoy is P1
with the medical flag, and the high_risk_cutoff rejection otherwise. -/
theorem c5_emergency_override :
    ∀ (c : Convoy) (s : Segment), s.is_blocked = false → loadExceeded c s = false →
      heightExceeded c s = false → widthExceeded c s = false → classNotAllowed c s = false →
      riskCutoff s = true →
      apply_hard_rules c s =
        (if medicalOverride c then .ok (true, some "emergency_medical_override")
         else .ok (false, some "high_risk_cutoff")) ∧
      (medicalOverride c = true ↔
        (c.priority_class = some "P1" ∧ "medical" ∈ c.special_flags.getD [])) := by
  intro c s hb hl hh hw hc hr
  constructor
  · unfold apply_hard_rules
    rw [hb, hl, hh, hw, hc, hr]
    rfl
  · unfold medicalOverride
    cases hf : c.special_flags with
    | none => simp
    | some fs =>
        simp only [Option.getD_some, Bool.and_eq_true, Bool.not_eq_true',
          decide_eq_true_eq]
        constructor
        · rintro ⟨h1, _, h3⟩
          exact ⟨h1, h3⟩
        · rintro ⟨h1, h2⟩
          refine ⟨h1, ?_, h2⟩
          cases fs with
          | nil => cases h2
          | cons a l => rfl

/-- Witness for C5: the high-risk segment with a P1 medical convoy (allowed
with the override reason) and with a P2 medical convoy (rejected). -/
theorem c5_emergency_override_witness :
    apply_hard_rules cP1med segRisky = .ok (true, some "emergency_medical_override") ∧
    apply_hard_rules cP2med segRisky = .ok (false, some "high_risk_cutoff") := by
  have h1 := c5_emergency_override cP1med segRisky
    (by with_unfolding_all decide) (by with_unfolding_all decide)
    (by with_unfolding_all decide) (by with_unfolding_all decide)
    (by with_unfolding_all decide) (by with_unfolding_all decide)
  have h2 := c5_emergency_override cP2med segRisky
    (by with_unfolding_all decide) (by with_unfolding_all decide)
    (by with_unfolding_all decide) (by with_unfolding_all decide)
    (by with_unfolding_all decide) (by with_unfolding_all decide)
  refine ⟨?_, ?_⟩
  · rw [h1.1]
    with_unfolding_all decide
  · rw [h2.1]
    with_unfolding_all decide

/-- C10.  Implicit default convoy class: a convoy without a convoy_class
field, on a segment passing the earlier rules, is rejected with
convoy_class_not_allowed exactly when Light is not in the allowed-class set
(which defaults to Light, Medium, Heavy when the segment omits it). -/
theorem c10_default_convoy_class :
    ∀ (c : Convoy) (s : Segment), c.convoy_class = none → s.is_blocked = false →
      loadExceeded c s = false → heightExceeded c s = false → widthExceeded c s = false →
      (apply_hard_rules c s = .ok (false, some "convoy_class_not_allowed") ↔
        "Light" ∉ s.allowed_convoy_classes.getD ["Light", "Medium", "Heavy"]) := by
  intro c s hclass hb hl hh hw
  have hcn : classNotAllowed c s =
      decide ("Light" ∉ s.allowed_convoy_classes.getD ["Light", "Medium", "Heavy"]) := by
    unfold classNotAllowed
    rw [hclass]
    rfl
  unfold apply_hard_rules
  rw [hb, hl, hh, hw, hcn]
  by_cases hL : "Light" ∉ s.allowed_convoy_classes.getD ["Light", "Medium", "Heavy"]
  · simp [hL]
  · rw [decide_eq_false hL]
    simp only [Bool.false_eq_true, if_false]
    refine iff_of_false ?_ hL
    cases hrc : riskCutoff s with
    | true =>
        intro heq
        rw [if_pos rfl] at heq
        revert heq
        cases hmo : medicalOverride c <;> simp
    | false =>
        intro heq
        rw [if_neg (by simp)] at heq
        cases hws : s.weather_sensitivity with
        | none =>
            rw [hws] at heq
            simp at heq
        | some j =>
            cases j with
            | num q =>
                rw [hws] at heq
                revert heq
                split
                · simp
                · split <;> simp
                · simp
            | nonNum =>
                rw [hws] at heq
                simp at heq

/-- Witness for C10: no convoy_class against a Heavy-only segment (rejected
with the class reason) and against a segment without an allowed-class set
(never rejected for class). -/
theorem c10_default_convoy_class_witness :
    (apply_hard_rules {} segHeavyOnly = .ok (false, some "convoy_class_not_allowed") ↔
      "Light" ∉ segHeavyOnly.allowed_convoy_classes.getD ["Light", "Medium", "Heavy"]) ∧
    (apply_hard_rules {} segPlain = .ok (false, some "convoy_class_not_allowed") ↔
      "Light" ∉ segPlain.allowed_convoy_classes.getD ["Light", "Medium", "Heavy"]) :=
  ⟨c10_default_convoy_class {} segHeavyOnly rfl (by with_unfolding_all decide)
      (by with_unfolding_all decide) (by with_unfolding_all decide)
      (by with_unfolding_all decide),
   c10_default_convoy_class {} segPlain rfl
      (by with_unfolding_all decide) (by with_unfolding_all decide)
      (by with_unfolding_all decide) (by with_unfolding_all decide)⟩

/-- C6 counterexample.  The claim says a missing or non-numeric value in any
of the expected numeric fields, weather sensitivity included, skips the rule
and never raises.  A segment whose weather_sensitivity holds a non-numeric
value passes every earlier rule and then raises a TypeError: the rule 6
comparison is not wrapped in try/except, unlike the load, height, width and
risk comparisons. -/
theorem c6_counterexample : apply_hard_rules {} segWea = .error "TypeError" := by
  with_unfolding_all decide

/-- C6 amended.  Fail-open holds for the guarded comparisons: a missing or
non-numeric value in any field they read, on either side (weight_tons,
max_load_tons, height_m, max_height_m, width_m, max_width_m, risk_level),
behaves exactly as an absent field (the rule does not apply), and
apply_hard_rules returns a value, never an error, whenever
weather_sensitivity is absent or numeric. -/
theorem c6_fail_open_amended :
    (∀ (c : Convoy) (s : Segment), NumOrAbsent s.weather_sensitivity →
      ∃ r, apply_hard_rules c s = .ok r) ∧
    (∀ (c : Convoy) (s : Segment), toNumF c.weight_tons = none →
      apply_hard_rules c s = apply_hard_rules { c with weight_tons := none } s) ∧
    (∀ (c : Convoy) (s : Segment), toNumF c.height_m = none →
      apply_hard_rules c s = apply_hard_rules { c with height_m := none } s) ∧
    (∀ (c : Convoy) (s : Segment), toNumF c.width_m = none →
      apply_hard_rules c s = apply_hard_rules { c with width_m := none } s) ∧
    (∀ (c : Convoy) (s : Segment), toNumF s.risk_level = none →
      apply_hard_rules c s = apply_hard_rules c { s with risk_level := none }) ∧
    (∀ (c : Convoy) (s : Segment), toNumF s.max_load_tons = none →
      apply_hard_rules c s = apply_hard_rules c { s with max_load_tons := none }) ∧
    (∀ (c : Convoy) (s : Segment), toNumF s.max_height_m = none →
      apply_hard_rules c s = apply_hard_rules c { s with max_height_m := none }) ∧
    (∀ (c : Convoy) (s : Segment), toNumF s.max_width_m = none →
      apply_hard_rules c s = apply_hard_rules c { s with max_width_m := none }) := by
  refine ⟨?_, ?_, ?_, ?_, ?_, ?_, ?_, ?_⟩
  · intro c s hws
    unfold apply_hard_rules
    repeat' split
    all_goals first
      | exact ⟨_, rfl⟩
      | exact absurd (by assumption) hws
  · intro c s hw
    have h2 : loadExceeded c s = false := by
      unfold loadExceeded
      rw [hw]
    have h3 : loadExceeded { c with weight_tons := none } s = false := by
      unfold loadExceeded
      cases toNumF s.max_load_tons <;> rfl
    unfold apply_hard_rules
    rw [h2, h3]
    rfl
  · intro c s hh
    have h2 : heightExceeded c s = false := by
      unfold heightExceeded
      rw [hh]
    have h3 : heightExceeded { c with height_m := none } s = false := by
      unfold heightExceeded
      cases toNumF s.max_height_m <;> rfl
    unfold apply_hard_rules
    rw [h2, h3]
    rfl
  · intro c s hw
    have h2 : widthExceeded c s = false := by
      unfold widthExceeded
      rw [hw]
    have h3 : widthExceeded { c with width_m := none } s = false := by
      unfold widthExceeded
      cases toNumF s.max_width_m <;> rfl
    unfold apply_hard_rules
    rw [h2, h3]
    rfl
  · intro c s hr
    have h2 : riskCutoff s = false := by
      unfold riskCutoff
      rw [hr]
    have h3 : riskCutoff { s with risk_level := none } = false := rfl
    unfold apply_hard_rules
    rw [h2, h3]
    rfl
  · intro c s hm
    have h2 : loadExceeded c s = false := by
      unfold loadExceeded
      rw [hm]
      cases toNumF c.weight_tons <;> rfl
    have h3 : loadExceeded c { s with max_load_tons := none } = false := by
      unfold loadExceeded
      cases toNumF c.weight_tons <;> rfl
    unfold apply_hard_rules
    rw [h2, h3]
    rfl
  · intro c s hm
    have h2 : heightExceeded c s = false := by
      unfold heightExceeded
      rw [hm]
      cases toNumF c.height_m <;> rfl
    have h3 : heightExceeded c { s with max_height_m := none } = false := by
      unfold heightExceeded
      cases toNumF c.height_m <;> rfl
    unfold apply_hard_rules
    rw [h2, h3]
    rfl
  · intro c s hm
    have h2 : widthExceeded c s = false := by
      unfold widthExceeded
      rw [hm]
      cases toNumF c.width_m <;> rfl
    have h3 : widthExceeded c { s with max_width_m := none } = false := by
      unfold widthExceeded
      cases toNumF c.width_m <;> rfl
    unfold apply_hard_rules
    rw [h2, h3]
    rfl

/-- Witness for the C6 amended theorem at concrete inputs: a well-formed run
that returns a value, a non-numeric convoy weight skipped as absent, and a
non-numeric segment load limit skipped as absent against a numeric weight. -/
theorem c6_fail_open_witness :
    (∃ r, apply_hard_rules {} segPlain = .ok r) ∧
    apply_hard_rules cNonNumW segLoad20 =
      apply_hard_rules { cNonNumW with weight_tons := none } segLoad20 ∧
    apply_hard_rules cHeavyLoad segNonNumMax =
      apply_hard_rules cHeavyLoad { segNonNumMax with max_load_tons := none } :=
  ⟨c6_fail_open_amended.1 {} segPlain (by with_unfolding_all decide),
   c6_fail_open_amended.2.1 cNonNumW segLoad20 (by with_unfolding_all decide),
   c6_fail_open_amended.2.2.2.2.2.1 cHeavyLoad segNonNumMax (by with_unfolding_all decide)⟩

/-- Structure of a successful filterSegs run: the allowed accumulator is the
allowed filter of the input and the excluded accumulator is the annotated
rejected filter, both in input order. -/
theorem filterSegs_spec (c : Convoy) :
    ∀ (l : List Segment) (al ex : List Segment), filterSegs c l = .ok (al, ex) →
      al = l.filter (fun s => allowedB c s) ∧
      ex = (l.filter (fun s => !allowedB c s)).map
        (fun s => { s with rejection_reason := reasonOf c s }) := by
  intro l
  induction l with
  | nil =>
      intro al ex h
      unfold filterSegs at h
      simp only [Except.ok.injEq, Prod.mk.injEq] at h
      obtain ⟨hal, hex⟩ := h
      subst hal hex
      simp
  | cons seg rest ih =>
      intro al ex h
      unfold filterSegs at h
      cases hsa : segment_allowed_for_convoy c seg with
      | error e =>
          rw [hsa] at h
          simp at h
      | ok pr =>
          obtain ⟨a, r⟩ := pr
          cases hrest : filterSegs c rest with
          | error e =>
              rw [hsa, hrest] at h
              simp at h
          | ok pr2 =>
              obtain ⟨al2, ex2⟩ := pr2
              obtain ⟨hal2, hex2⟩ := ih al2 ex2 hrest
              have hab : allowedB c seg = a := by
                unfold allowedB segment_allowed_for_convoy
                unfold segment_allowed_for_convoy at hsa
                rw [hsa]
              have hrr : reasonOf c seg = r := by
                unfold reasonOf segment_allowed_for_convoy
                unfold segment_allowed_for_convoy at hsa
                rw [hsa]
              rw [hsa, hrest] at h
              replace h :
                  (if a = true then (Except.ok (seg :: al2, ex2) : Except String _)
                   else .ok (al2, { seg with rejection_reason := r } :: ex2)) = .ok (al, ex) := h
              cases a with
              | true =>
                  rw [if_pos rfl] at h
                  simp only [Except.ok.injEq, Prod.mk.injEq] at h
                  obtain ⟨hal, hex⟩ := h
                  subst hal hex
                  rw [List.filter_cons, List.filter_cons, hab]
                  simp [hal2, hex2]
              | false =>
                  rw [if_neg (by simp)] at h
                  simp only [Except.ok.injEq, Prod.mk.injEq] at h
                  obtain ⟨hal, hex⟩ := h
                  subst hal hex
                  rw [List.filter_cons, List.filter_cons, hab]
                  simp [hal2, hex2, hrr]

/-- C9.  Filter frame property: a successful filtering run keeps the node
list identical, partitions the segments into the allowed list and the
annotated excluded list, and reports counts equal to the two list lengths,
which sum to the input segment count. -/
theorem c9_filter_frame :
    ∀ (c : Convoy) (g : Graph) (fg : Graph) (lg : FilterLog),
      filter_graph_for_convoy c g = .ok (fg, lg) →
      fg.nodes = g.nodes ∧
      fg.segments = g.segments.filter (fun s => allowedB c s) ∧
      lg.excluded_segments = (g.segments.filter (fun s => !allowedB c s)).map
        (fun s => { s with rejection_reason := reasonOf c s }) ∧
      lg.allowed_count = fg.segments.length ∧
      lg.excluded_count = lg.excluded_segments.length ∧
      lg.allowed_count + lg.excluded_count = g.segments.length := by
  intro c g fg lg h
  unfold filter_graph_for_convoy at h
  cases hfs : filterSegs c g.segments with
  | error e =>
      rw [hfs] at h
      exact absurd h (by simp)
  | ok pr =>
      obtain ⟨al, ex⟩ := pr
      rw [hfs] at h
      obtain ⟨hal, hex⟩ := filterSegs_spec c g.segments al ex hfs
      injection h with h2
      injection h2 with hfg hlg
      subst hfg hlg
      refine ⟨rfl, hal, hex, rfl, rfl, ?_⟩
      rw [hal, hex]
      simp only [List.length_map]
      exact (List.length_eq_length_filter_add (fun s => allowedB c s)).symm

/-- Witness for C9 on a concrete run: one blocked segment excluded, one
allowed. -/
theorem c9_filter_frame_witness :
    gFiltArt.nodes = gArt.nodes ∧
    gFiltArt.segments = gArt.segments.filter (fun s => allowedB {} s) ∧
    logArt.excluded_segments = (gArt.segments.filter (fun s => !allowedB {} s)).map
      (fun s => { s with rejection_reason := reasonOf {} s }) ∧
    logArt.allowed_count = gFiltArt.segments.length ∧
    logArt.excluded_count = logArt.excluded_segments.length ∧
    logArt.allowed_count + logArt.excluded_count = gArt.segments.length :=
  c9_filter_frame {} gArt gFiltArt logArt (by with_unfolding_all decide)

/-- C3 counterexample.  The claim says the heuristic artifacts of a planning
run are computed from the full unfiltered graph.  On gArt the run computes
min_time_per_km from the filtered graph (value 2, the slow open segment),
not from the full graph (value one half, set by the blocked fast segment):
plan_for_convoy hands the post-filter graph to compute_route, which derives
both artifacts from its own graph argument. -/
theorem c3_counterexample :
    plan_search_min_time_per_km {} gArt = .ok 2 ∧
    compute_min_time_per_km gArt = 1 / 2 ∧ (2 : ℚ) ≠ 1 / 2 :=
  ⟨by with_unfolding_all decide, by with_unfolding_all decide, by with_unfolding_all decide⟩

/-- C3 amended.  The heuristic artifacts are computed from the post-filter
graph: the planner passes the filtered graph to the search step, whose
min_time_per_km artifact is computed from that filtered graph (they agree
with the full-graph artifacts only when filtering removes no segment). -/
theorem c3_artifacts_amended :
    ∀ (c : Convoy) (g : Graph) (fg : Graph) (lg : FilterLog),
      filter_graph_for_convoy c g = .ok (fg, lg) →
      plan_search_min_time_per_km c g = .ok (compute_min_time_per_km fg) ∧
      plan_for_convoy c g = (compute_route c fg).map
        (fun rr => { convoy_id := c.convoy_id.getD "convoy", filter_log := lg,
                     route_result := rr }) := by
  intro c g fg lg h
  constructor
  · unfold plan_search_min_time_per_km
    rw [h]
  · unfold plan_for_convoy
    simp only [h]
    cases compute_route c fg <;> rfl

/-- Witness for the C3 amended theorem on the concrete gArt run. -/
theorem c3_artifacts_witness :
    plan_search_min_time_per_km {} gArt = .ok (compute_min_time_per_km gFiltArt) ∧
    plan_for_convoy {} gArt = (compute_route {} gFiltArt).map
      (fun rr => { convoy_id := ({} : Convoy).convoy_id.getD "convoy", filter_log := logArt,
                   route_result := rr }) :=
  c3_artifacts_amended {} gArt gFiltArt logArt (by with_unfolding_all decide)

/-- Chains extend on the right by one matching edge. -/
theorem isChain_append (E : List Segment) :
    ∀ (q : List Segment) (o u : String) (e : Segment), isChain E o u q = true →
      e ∈ E → e.from_node = u → isChain E o e.to_node (q ++ [e]) = true := by
  intro q
  induction q with
  | nil =>
      intro o u e hc hmem hfrom
      have hou : o = u := by
        have : (o == u) = true := hc
        exact eq_of_beq this
      subst hou
      show (decide (e ∈ E) && (e.from_node == o) && isChain E e.to_node e.to_node []) = true
      simp [isChain, hmem, hfrom]
  | cons f q2 ih =>
      intro o u e hc hmem hfrom
      replace hc : (decide (f ∈ E) && (f.from_node == o) && isChain E f.to_node u q2) = true := hc
      obtain ⟨h12, h3⟩ := (Bool.and_eq_true _ _).mp hc
      have hext := ih f.to_node u e h3 hmem hfrom
      show (decide (f ∈ E) && (f.from_node == o) &&
        isChain E f.to_node e.to_node (q2 ++ [e])) = true
      exact (Bool.and_eq_true _ _).mpr ⟨h12, hext⟩

/-- The entry and remainder returned by popMin come from the input frontier. -/
theorem popMin_mem :
    ∀ (l : List AEntry) (m : AEntry) (rest : List AEntry),
      popMin l = some (m, rest) → m ∈ l ∧ ∀ y ∈ rest, y ∈ l := by
  intro l
  induction l with
  | nil =>
      intro m rest h
      simp [popMin] at h
  | cons x xs ih =>
      intro m rest h
      unfold popMin at h
      cases hp : popMin xs with
      | none =>
          simp only [hp] at h
          simp only [Option.some.injEq, Prod.mk.injEq] at h
          obtain ⟨hm, hrest⟩ := h
          subst hm hrest
          exact ⟨List.mem_cons_self x xs, by intro y hy; cases hy⟩
      | some pr =>
          obtain ⟨m2, rest2⟩ := pr
          obtain ⟨hm2, hrest2⟩ := ih m2 rest2 hp
          simp only [hp] at h
          by_cases hle : x.fCost ≤ m2.fCost
          · rw [if_pos hle] at h
            simp only [Option.some.injEq, Prod.mk.injEq] at h
            obtain ⟨hm, hrest⟩ := h
            subst hm hrest
            exact ⟨List.mem_cons_self x xs, fun y hy => List.mem_cons_of_mem x hy⟩
          · rw [if_neg hle] at h
            simp only [Option.some.injEq, Prod.mk.injEq] at h
            obtain ⟨hm, hrest⟩ := h
            subst hm hrest
            refine ⟨List.mem_cons_of_mem x hm2, ?_⟩
            intro y hy
            rcases List.mem_cons.mp hy with h1 | h2
            · rw [h1]
              exact List.mem_cons_self x xs
            · exact List.mem_cons_of_mem x (hrest2 y h2)

/-- Every path the search loop returns is the reverse of a frontier-invariant
path ending (in reversed form, starting) at the destination. -/
theorem astarLoop_sound (E : List (Segment × WithTop ℚ)) (h : String → ℚ) (dest o : String) :
    ∀ (fuel : ℕ) (fr : List AEntry) (visited : List String) (p : List String),
      (∀ ent ∈ fr, revPathOk E o ent.path = true) →
      astarLoop E h dest fuel fr visited = some p →
      ∃ rp, revPathOk E o rp = true ∧ rp.head? = some dest ∧ p = rp.reverse := by
  intro fuel
  induction fuel with
  | zero =>
      intro fr visited p hinv hrun
      simp [astarLoop] at hrun
  | succ fuel ih =>
      intro fr visited p hinv hrun
      unfold astarLoop at hrun
      cases hpop : popMin fr with
      | none =>
          simp only [hpop] at hrun
          exact Option.noConfusion hrun
      | some pr =>
          obtain ⟨ent, rest⟩ := pr
          obtain ⟨hentmem, hrestmem⟩ := popMin_mem fr ent rest hpop
          simp only [hpop] at hrun
          cases hpath : ent.path with
          | nil =>
              simp only [hpath] at hrun
              exact Option.noConfusion hrun
          | cons u t =>
              simp only [hpath] at hrun
              by_cases hu : u = dest
              · rw [if_pos hu] at hrun
                have hrp := hinv ent hentmem
                rw [hpath] at hrp
                refine ⟨u :: t, hrp, by simp [hu], ?_⟩
                simp only [Option.some.injEq] at hrun
                exact hrun.symm
              · rw [if_neg hu] at hrun
                by_cases hv : u ∈ visited
                · rw [if_pos hv] at hrun
                  exact ih rest visited p (fun e he => hinv e (hrestmem e he)) hrun
                · rw [if_neg hv] at hrun
                  refine ih _ _ p ?_ hrun
                  intro e he
                  rcases List.mem_append.mp he with h1 | h2
                  · exact hinv e (hrestmem e h1)
                  · obtain ⟨ew, hewmem, hee⟩ := List.mem_map.mp h2
                    have hmf := List.mem_filter.mp hewmem
                    rw [← hee]
                    show revPathOk E o (ew.1.to_node :: (u :: t)) = true
                    have hprev := hinv ent hentmem
                    rw [hpath] at hprev
                    show ((E.any fun x => x.1.from_node == u && x.1.to_node == ew.1.to_node) &&
                      revPathOk E o (u :: t)) = true
                    refine (Bool.and_eq_true _ _).mpr ⟨?_, hprev⟩
                    refine List.any_eq_true.mpr ⟨ew, hmf.1, ?_⟩
                    refine (Bool.and_eq_true _ _).mpr ⟨hmf.2, ?_⟩
                    simp

/-- A reversed valid path yields a chain of matching edges from the origin
to its head node. -/
theorem revPath_to_chain (E : List (Segment × WithTop ℚ)) (o : String) :
    ∀ (rp : List String) (v : String), revPathOk E o rp = true → rp.head? = some v →
      ∃ q, isChain (E.map Prod.fst) o v q = true := by
  intro rp
  induction rp with
  | nil =>
      intro v h1 h2
      simp [revPathOk] at h1
  | cons x rest ih =>
      intro v h1 h2
      have hv : x = v := by
        simp only [List.head?_cons, Option.some.injEq] at h2
        exact h2
      subst hv
      cases rest with
      | nil =>
          have hxo : x = o := by
            have : (x == o) = true := h1
            exact eq_of_beq this
          subst hxo
          exact ⟨[], by simp [isChain]⟩
      | cons u rest2 =>
          replace h1 : ((E.any fun ew => ew.1.from_node == u && ew.1.to_node == x) &&
              revPathOk E o (u :: rest2)) = true := h1
          obtain ⟨hedge, hprev⟩ := (Bool.and_eq_true _ _).mp h1
          obtain ⟨q, hq⟩ := ih u hprev rfl
          obtain ⟨ew, hewmem, hewp⟩ := List.any_eq_true.mp hedge
          obtain ⟨hf, ht⟩ := (Bool.and_eq_true _ _).mp hewp
          have hf2 : ew.1.from_node = u := eq_of_beq hf
          have ht2 : ew.1.to_node = x := eq_of_beq ht
          refine ⟨q ++ [ew.1], ?_⟩
          rw [← ht2]
          exact isChain_append (E.map Prod.fst) q o u ew.1 hq
            (List.mem_map_of_mem Prod.fst hewmem) hf2

/-- The annotated edge list keeps exactly the input edges, in order. -/
theorem annotateCosts_fst (c : Convoy) :
    ∀ (l : List Segment) (ae : List (Segment × WithTop ℚ)),
      annotateCosts c l = .ok ae → ae.map Prod.fst = l := by
  intro l
  induction l with
  | nil =>
      intro ae h
      unfold annotateCosts at h
      simp only [Except.ok.injEq] at h
      subst h
      rfl
  | cons e rest ih =>
      intro ae h
      unfold annotateCosts at h
      by_cases hb : e.is_blocked = true
      · rw [if_pos hb] at h
        cases hrest : annotateCosts c rest with
        | error er =>
            rw [hrest] at h
            exact Except.noConfusion h
        | ok ws =>
            rw [hrest] at h
            simp only [Except.ok.injEq] at h
            subst h
            simp only [List.map_cons]
            rw [ih ws hrest]
      · rw [if_neg hb] at h
        cases hec : edge_cost_for_convoy c e with
        | error er =>
            rw [hec] at h
            exact Except.noConfusion h
        | ok q =>
            rw [hec] at h
            cases hrest : annotateCosts c rest with
            | error er =>
                rw [hrest] at h
                exact Except.noConfusion h
            | ok ws =>
                rw [hrest] at h
                simp only [Except.ok.injEq] at h
                subst h
                simp only [List.map_cons]
                rw [ih ws hrest]

/-- C7.  Invalid endpoints: when the origin or destination id is missing or
absent from the node set of the built graph, compute_route returns the
invalid_origin_or_destination failure value (no exception); when both
endpoints are present and the intermediate steps succeed but no edge chain
joins them, it returns the no_path failure value. -/
theorem c7_endpoint_failures :
    (∀ (c : Convoy) (g : Graph),
      ((¬∃ o, c.origin = some o ∧ o ∈ graphNodes g) ∨
       (¬∃ d, c.destination = some d ∧ d ∈ graphNodes g)) →
      compute_route c g = .ok (RouteResult.failure "invalid_origin_or_destination")) ∧
    (∀ (c : Convoy) (g : Graph) (o d : String) (dE : List DEdge)
      (ae : List (Segment × WithTop ℚ)),
      c.origin = some o → c.destination = some d →
      o ∈ graphNodes g → d ∈ graphNodes g →
      buildDistEdges g.segments = .ok dE →
      annotateCosts c (build_graph g) = .ok ae →
      (∀ p : List Segment, isChain (build_graph g) o d p = false) →
      compute_route c g = .ok (RouteResult.failure "no_path")) := by
  constructor
  · intro c g hbad
    unfold compute_route
    split
    · next o d ho hd =>
        have hno : ¬(o ∈ graphNodes g ∧ d ∈ graphNodes g) := by
          rcases hbad with h1 | h2
          · exact fun hc => h1 ⟨o, ho, hc.1⟩
          · exact fun hc => h2 ⟨d, hd, hc.2⟩
        simp [hno]
    · rfl
  · intro c g o d dE ae ho hd hmo hmd hdE hae hnochain
    unfold compute_route
    split
    · next o2 d2 ho2 hd2 =>
        rw [ho] at ho2
        rw [hd] at hd2
        obtain rfl : o = o2 := Option.some.inj ho2
        obtain rfl : d = d2 := Option.some.inj hd2
        simp only [hdE, hae, hmo, hmd, and_self, if_true]
        split
        · rfl
        · next pn hast =>
            exfalso
            obtain ⟨rp, hrp, hhead, hp⟩ := astarLoop_sound ae _ d o _ _ [] pn
              (by
                intro ent hent
                simp only [List.mem_singleton] at hent
                subst hent
                show (o == o) = true
                simp) hast
            obtain ⟨q, hq⟩ := revPath_to_chain ae o rp d hrp hhead
            rw [annotateCosts_fst c (build_graph g) ae hae] at hq
            rw [hnochain q] at hq
            exact Bool.noConfusion hq
    · next hno =>
        exfalso
        exact hno o d ho hd

/-- Witness for C7: a missing origin node fails as invalid, two isolated
nodes fail as no_path. -/
theorem c7_endpoint_failures_witness :
    compute_route cXB gIso = .ok (RouteResult.failure "invalid_origin_or_destination") ∧
    compute_route cRun gIso = .ok (RouteResult.failure "no_path") := by
  constructor
  · refine c7_endpoint_failures.1 cXB gIso (Or.inl ?_)
    rintro ⟨o, ho, hmem⟩
    have hx : "X" = o := Option.some.inj ho
    subst hx
    exact absurd hmem (by with_unfolding_all decide)
  · refine c7_endpoint_failures.2 cRun gIso "A" "B" [] [] rfl rfl
      (by with_unfolding_all decide) (by with_unfolding_all decide) rfl rfl ?_
    intro p
    cases p with
    | nil => with_unfolding_all decide
    | cons e p2 =>
        show (decide (e ∈ build_graph gIso) && (e.from_node == "A") &&
          isChain (build_graph gIso) e.to_node "B" p2) = false
        have : build_graph gIso = [] := rfl
        rw [this]
        simp

/-- The accumulated eta and risk of the metrics loop equal the sums over the
collected route segments. -/
theorem collectRoute_sums (ae : List (Segment × WithTop ℚ)) :
    ∀ (pairs : List (String × String)) (segs : List RouteSeg) (eta : WithTop ℚ) (risk : ℚ),
      collectRoute ae pairs = .ok (segs, eta, risk) →
      eta = (segs.map (fun rs => rs.computed_cost)).sum ∧
      risk = (segs.map (fun rs => rs.risk_level)).sum := by
  intro pairs
  induction pairs with
  | nil =>
      intro segs eta risk h
      unfold collectRoute at h
      simp only [Except.ok.injEq, Prod.mk.injEq] at h
      obtain ⟨h1, h2, h3⟩ := h
      subst h1 h2 h3
      simp
  | cons uv rest ih =>
      intro segs eta risk h
      obtain ⟨u, v⟩ := uv
      unfold collectRoute at h
      cases hlk : lookupEdge ae u v with
      | none =>
          rw [hlk] at h
          exact Except.noConfusion h
      | some ew =>
          rw [hlk] at h
          cases hbase : getFloatD ew.1.base_time_min 0 with
          | error e =>
              simp only [hbase] at h
              exact Except.noConfusion h
          | ok segBase =>
              simp only [hbase] at h
              cases hrisk : getFloatD ew.1.risk_level 0 with
              | error e =>
                  simp only [hrisk] at h
                  exact Except.noConfusion h
              | ok segRisk =>
                  simp only [hrisk] at h
                  cases hrest : collectRoute ae rest with
                  | error e =>
                      simp only [hrest] at h
                      exact Except.noConfusion h
                  | ok tr =>
                      obtain ⟨segs2, etarisk2⟩ := tr
                      obtain ⟨eta2, risk2⟩ := etarisk2
                      simp only [hrest] at h
                      obtain ⟨hih1, hih2⟩ := ih segs2 eta2 risk2 hrest
                      simp only [Except.ok.injEq, Prod.mk.injEq] at h
                      obtain ⟨hsegs, heta, hrisk3⟩ := h
                      subst hsegs heta hrisk3
                      constructor
                      · simp [hih1]
                      · simp [hih2]

/-- C8.  Route totals: every successful compute_route result reports
eta_minutes equal to the rounded (2 decimals) sum of the computed_cost
values of its route segments, and total_risk equal to the rounded
(3 decimals) sum of their risk_level values. -/
theorem c8_route_totals :
    ∀ (c : Convoy) (g : Graph) (r : RouteOk),
      compute_route c g = .ok (RouteResult.success r) →
      r.eta_minutes = WithTop.map (roundTo 2)
        ((r.route_segments.map (fun rs => rs.computed_cost)).sum) ∧
      r.total_risk = roundTo 3 ((r.route_segments.map (fun rs => rs.risk_level)).sum) := by
  intro c g r h
  unfold compute_route at h
  simp only [] at h
  repeat' split at h
  all_goals
    first
      | exact Except.noConfusion h
      | exact absurd h (fun hh => RouteResult.noConfusion (Except.ok.inj hh))
      | skip
  simp only [Except.ok.injEq, RouteResult.success.injEq] at h
  subst h
  obtain ⟨h1, h2⟩ := collectRoute_sums _ _ _ _ _ (by assumption)
  constructor
  · simp [h1]
  · simp [h2]

/-- Witness for C8 on the concrete successful run over gRun. -/
theorem c8_route_totals_witness :
    runResult.eta_minutes = WithTop.map (roundTo 2)
      ((runResult.route_segments.map (fun rs => rs.computed_cost)).sum) ∧
    runResult.total_risk = roundTo 3
      ((runResult.route_segments.map (fun rs => rs.risk_level)).sum) :=
  c8_route_totals cRun gRun runResult (by with_unfolding_all decide)

/-- A fold of min is bounded by its seed and by every list element. -/
theorem foldl_min_le (xs : List ℚ) :
    ∀ (a : ℚ), xs.foldl min a ≤ a ∧ ∀ x ∈ xs, xs.foldl min a ≤ x := by
  induction xs with
  | nil =>
      intro a
      exact ⟨le_refl a, by intro x hx; cases hx⟩
  | cons y ys ih =>
      intro a
      obtain ⟨h1, h2⟩ := ih (min a y)
      refine ⟨le_trans h1 (min_le_left a y), ?_⟩
      intro x hx
      rcases List.mem_cons.mp hx with hxy | hxys
      · subst hxy
        exact le_trans h1 (min_le_right a x)
      · exact h2 x hxys

/-- Every member of a list bounds its minimum from above. -/
theorem minQ_mem_le (l : List ℚ) (x : ℚ) (hx : x ∈ l) :
    ∃ m, minQ l = some m ∧ m ≤ x := by
  cases l with
  | nil => cases hx
  | cons y ys =>
      refine ⟨ys.foldl min y, rfl, ?_⟩
      rcases List.mem_cons.mp hx with h1 | h2
      · subst h1
        exact (foldl_min_le ys x).1
      · exact (foldl_min_le ys y).2 x h2

/-- The final node of a non-empty distance chain is one of its edge targets. -/
theorem isDChain_last_mem (E : List DEdge) :
    ∀ (p : List DEdge) (u v : String), p ≠ [] → isDChain E u v p = true →
      v ∈ p.map (fun e => e.dst) := by
  intro p
  induction p with
  | nil =>
      intro u v hne
      exact absurd rfl hne
  | cons e p2 ih =>
      intro u v _ hc
      replace hc : (decide (e ∈ E) && (e.src == u) && isDChain E e.dst v p2) = true := hc
      obtain ⟨_, h3⟩ := (Bool.and_eq_true _ _).mp hc
      cases p2 with
      | nil =>
          have : e.dst = v := eq_of_beq h3
          simp [this]
      | cons f p3 =>
          have hmem := ih e.dst v (by simp) h3
          simpa using Or.inr (by simpa using hmem)

/-- Enumeration completeness: every duplicate-free chain whose nodes lie in
avail appears in the simplePaths enumeration. -/
theorem simplePaths_complete (E : List DEdge) :
    ∀ (p : List DEdge) (avail : List String) (u v : String),
      isDChain E u v p = true → (dnodes u p).Nodup →
      (∀ x ∈ dnodes u p, x ∈ avail) → p ∈ simplePaths E avail u v := by
  intro p
  induction p with
  | nil =>
      intro avail u v hc _ _
      have huv : u = v := eq_of_beq hc
      subst huv
      rw [simplePaths]
      rw [if_pos rfl]
      exact List.mem_singleton.mpr rfl
  | cons e p2 ih =>
      intro avail u v hc hnd hsub
      replace hc : (decide (e ∈ E) && (e.src == u) && isDChain E e.dst v p2) = true := hc
      obtain ⟨h12, h3⟩ := (Bool.and_eq_true _ _).mp hc
      obtain ⟨hmemE, hsrc⟩ := (Bool.and_eq_true _ _).mp h12
      have hndc : u ∉ (e :: p2).map (fun x => x.dst) ∧ ((e :: p2).map (fun x => x.dst)).Nodup :=
        List.nodup_cons.mp hnd
      have hne : u ≠ v := by
        intro huv
        subst huv
        exact hndc.1 (isDChain_last_mem E (e :: p2) u u (by simp) hc)
      have humem : u ∈ avail := hsub u (by simp [dnodes])
      rw [simplePaths]
      rw [if_neg hne, dif_pos humem]
      refine List.mem_flatMap.mpr ⟨e, ?_, ?_⟩
      · refine List.mem_filter.mpr ⟨of_decide_eq_true hmemE, ?_⟩
        refine (Bool.and_eq_true _ _).mpr ⟨hsrc, decide_eq_true ?_⟩
        have hdstavail : e.dst ∈ avail := hsub e.dst (by simp [dnodes])
        have hdstne : e.dst ≠ u := by
          intro hdu
          exact hndc.1 (by simp [← hdu])
        exact (List.mem_erase_of_ne hdstne).mpr hdstavail
      · refine List.mem_map.mpr ⟨p2, ?_, rfl⟩
        refine ih (avail.erase u) e.dst v h3 hndc.2 ?_
        intro x hx
        have hxtail : x ∈ (e :: p2).map (fun y => y.dst) := hx
        have hxavail : x ∈ avail := hsub x (List.mem_cons_of_mem u hxtail)
        have hxne : x ≠ u := by
          intro hxu
          subst hxu
          exact hndc.1 hxtail
        exact (List.mem_erase_of_ne hxne).mpr hxavail

/-- A successful conversion with default 0 yields the total numeric reading. -/
theorem getFloatD_numD (v : Option JVal) (q : ℚ) (h : getFloatD v 0 = .ok q) :
    q = numD v := by
  cases v with
  | none => exact (Except.ok.inj h).symm
  | some j =>
      cases j with
      | num q2 => exact (Except.ok.inj h).symm
      | nonNum => exact Except.noConfusion h

/-- Both directed distance edges of every input segment appear in a
successfully built distance-edge list. -/
theorem buildDistEdges_mem :
    ∀ (l : List Segment) (dE : List DEdge), buildDistEdges l = .ok dE →
      ∀ s ∈ l, (⟨s.from_node, s.to_node, numD s.distance_km⟩ : DEdge) ∈ dE ∧
        (⟨s.to_node, s.from_node, numD s.distance_km⟩ : DEdge) ∈ dE := by
  intro l
  induction l with
  | nil =>
      intro dE _ s hs
      cases hs
  | cons t rest ih =>
      intro dE h s hs
      unfold buildDistEdges at h
      cases hdq : getFloatD t.distance_km 0 with
      | error e =>
          rw [hdq] at h
          exact Except.noConfusion h
      | ok dq =>
          rw [hdq] at h
          cases hrest : buildDistEdges rest with
          | error e =>
              simp only [hrest] at h
              exact Except.noConfusion h
          | ok es =>
              simp only [hrest, Except.ok.injEq] at h
              subst h
              have hdq2 : dq = numD t.distance_km := getFloatD_numD t.distance_km dq hdq
              subst hdq2
              rcases List.mem_cons.mp hs with hst | hsrest
              · subst hst
                exact ⟨List.mem_cons_self _ _, List.mem_cons_of_mem _ (List.mem_cons_self _ _)⟩
              · obtain ⟨h1, h2⟩ := ih es hrest s hsrest
                exact ⟨List.mem_cons_of_mem _ (List.mem_cons_of_mem _ h1),
                  List.mem_cons_of_mem _ (List.mem_cons_of_mem _ h2)⟩

/-- Every built cost edge is the forward or reverse copy of an input segment. -/
theorem build_graph_cases (g : Graph) (s : Segment) (hs : s ∈ build_graph g) :
    ∃ t ∈ g.segments, s = t ∨ s = revSeg t := by
  obtain ⟨t, ht, hst⟩ := List.mem_flatMap.mp hs
  rcases List.mem_cons.mp hst with h1 | h2
  · exact ⟨t, ht, Or.inl h1⟩
  · exact ⟨t, ht, Or.inr (List.mem_singleton.mp h2)⟩

/-- Endpoints of built cost edges belong to the node set of the graph. -/
theorem build_graph_endpoints (g : Graph) (s : Segment) (hs : s ∈ build_graph g) :
    s.from_node ∈ graphNodes g ∧ s.to_node ∈ graphNodes g := by
  obtain ⟨t, ht, hcase⟩ := build_graph_cases g s hs
  have hfrom : t.from_node ∈ graphNodes g := by
    unfold graphNodes
    exact List.mem_append_right _ (List.mem_flatMap.mpr ⟨t, ht, by simp⟩)
  have hto : t.to_node ∈ graphNodes g := by
    unfold graphNodes
    exact List.mem_append_right _ (List.mem_flatMap.mpr ⟨t, ht, by simp⟩)
  rcases hcase with h1 | h2
  · subst h1
    exact ⟨hfrom, hto⟩
  · subst h2
    exact ⟨hto, hfrom⟩

/-- The distance edge of every built cost edge appears in a successfully
built distance-edge list (the reverse copy keeps the distance attribute). -/
theorem build_graph_toD (g : Graph) (dE : List DEdge)
    (hdE : buildDistEdges g.segments = .ok dE) (s : Segment) (hs : s ∈ build_graph g) :
    toD s ∈ dE := by
  obtain ⟨t, ht, hcase⟩ := build_graph_cases g s hs
  obtain ⟨h1, h2⟩ := buildDistEdges_mem g.segments dE hdE t ht
  rcases hcase with hc | hc
  · subst hc
    exact h1
  · subst hc
    exact h2

/-- A cost chain maps to a distance chain over the built distance edges. -/
theorem isChain_toD (g : Graph) (dE : List DEdge)
    (hdE : buildDistEdges g.segments = .ok dE) :
    ∀ (p : List Segment) (u v : String), isChain (build_graph g) u v p = true →
      isDChain dE u v (p.map toD) = true := by
  intro p
  induction p with
  | nil =>
      intro u v hc
      exact hc
  | cons e p2 ih =>
      intro u v hc
      replace hc : (decide (e ∈ build_graph g) && (e.from_node == u) &&
        isChain (build_graph g) e.to_node v p2) = true := hc
      obtain ⟨h12, h3⟩ := (Bool.and_eq_true _ _).mp hc
      obtain ⟨hmem, hfrom⟩ := (Bool.and_eq_true _ _).mp h12
      show (decide (toD e ∈ dE) && ((toD e).src == u) &&
        isDChain dE (toD e).dst v (p2.map toD)) = true
      refine (Bool.and_eq_true _ _).mpr ⟨(Bool.and_eq_true _ _).mpr ⟨?_, hfrom⟩, ?_⟩
      · exact decide_eq_true (build_graph_toD g dE hdE e (of_decide_eq_true hmem))
      · exact ih e.to_node v h3

/-- Node sequences agree between a cost chain and its distance image. -/
theorem dnodes_toD (u : String) (p : List Segment) :
    dnodes u (p.map toD) = chainNodes u p := by
  unfold dnodes chainNodes toD
  simp [List.map_map]

/-- All nodes visited by a non-empty cost chain lie in the node set. -/
theorem chainNodes_subset (g : Graph) :
    ∀ (p : List Segment) (u v : String), isChain (build_graph g) u v p = true → p ≠ [] →
      ∀ x ∈ chainNodes u p, x ∈ graphNodes g := by
  intro p
  induction p with
  | nil =>
      intro u v _ hne
      exact absurd rfl hne
  | cons e p2 ih =>
      intro u v hc _ x hx
      replace hc : (decide (e ∈ build_graph g) && (e.from_node == u) &&
        isChain (build_graph g) e.to_node v p2) = true := hc
      obtain ⟨h12, h3⟩ := (Bool.and_eq_true _ _).mp hc
      obtain ⟨hmem, hfrom⟩ := (Bool.and_eq_true _ _).mp h12
      have hememb := of_decide_eq_true hmem
      have hends := build_graph_endpoints g e hememb
      rcases List.mem_cons.mp hx with hxu | hxtail
      · subst hxu
        rw [← eq_of_beq hfrom]
        exact hends.1
      · cases p2 with
        | nil =>
            have : x = e.to_node := by simpa [chainNodes] using hxtail
            subst this
            exact hends.2
        | cons f p3 =>
            exact ih e.to_node v h3 (by simp) x hxtail

/-- C1 amended.  Heuristic admissibility holds under the assumption the
specification itself states: whenever the per-edge cost is never below the
min_time_per_km-scaled distance (and the ratio is non-negative), the
heuristic value at u never exceeds the cost of any duplicate-free route
from u to the destination; since every per-edge cost is at least 0.1, the
minimum route cost is attained on such a route, so h is a lower bound on
the true minimum cost. -/
theorem c1_heuristic_admissible_amended :
    ∀ (g : Graph) (c : Convoy) (dE : List DEdge) (d u : String) (p : List Segment),
      buildDistEdges g.segments = .ok dE →
      isChain (build_graph g) u d p = true →
      (chainNodes u p).Nodup →
      0 ≤ compute_min_time_per_km g →
      (∀ e ∈ p, compute_min_time_per_km g * numD e.distance_km ≤ edgeCostSpec c e) →
      heuristicVal dE (graphNodes g).dedup (compute_min_time_per_km g) d u ≤
        (p.map (fun e => edgeCostSpec c e)).sum := by
  intro g c dE d u p hdE hchain hnd hmtpk hbound
  by_cases hp : p = []
  · subst hp
    have hud : u = d := eq_of_beq hchain
    subst hud
    unfold heuristicVal shortestKm
    rw [simplePaths]
    rw [if_pos rfl]
    simp [minQ, pathDist]
  · have hq := isChain_toD g dE hdE p u d hchain
    have hmemQ : p.map toD ∈ simplePaths dE (graphNodes g).dedup u d := by
      refine simplePaths_complete dE (p.map toD) _ u d hq ?_ ?_
      · rw [dnodes_toD]
        exact hnd
      · intro x hx
        rw [dnodes_toD] at hx
        exact List.mem_dedup.mpr (chainNodes_subset g p u d hchain hp x hx)
    obtain ⟨m, hm, hmle⟩ := minQ_mem_le _ _
      (List.mem_map_of_mem pathDist hmemQ)
    unfold heuristicVal shortestKm
    simp only [hm]
    have h2 : pathDist (p.map toD) = (p.map (fun e => numD e.distance_km)).sum := by
      unfold pathDist toD
      simp [List.map_map]
      rfl
    calc compute_min_time_per_km g * m
        ≤ compute_min_time_per_km g * (p.map (fun e => numD e.distance_km)).sum :=
          mul_le_mul_of_nonneg_left (h2 ▸ hmle) hmtpk
      _ = (p.map (fun e => compute_min_time_per_km g * numD e.distance_km)).sum :=
          (List.sum_map_mul_left p (fun e => numD e.distance_km) _).symm
      _ ≤ (p.map (fun e => edgeCostSpec c e)).sum := List.sum_le_sum hbound

/-- C1 counterexample.  On gHeu with the maximal-allowance convoy cHeu, the
single-segment route from A to B is a valid chain of cost 2 (so the true
minimum cost from A to B is at most 2), yet the heuristic value at A is 10:
h(A) exceeds the true minimum cost, refuting unconditional admissibility.
The allowance term drives the edge cost below the
min_time_per_km-scaled distance bound, exactly the design risk the
specification flags. -/
theorem c1_counterexample :
    isChain (build_graph gHeu) "A" "B" [segAB] = true ∧
    (chainNodes "A" [segAB]).Nodup ∧
    buildDistEdges gHeu.segments = .ok dEHeu ∧
    edge_cost_for_convoy cHeu segAB = .ok 2 ∧
    edgeCostSpec cHeu segAB = 2 ∧
    heuristicVal dEHeu (graphNodes gHeu).dedup (compute_min_time_per_km gHeu) "B" "A" = 10 ∧
    ¬(heuristicVal dEHeu (graphNodes gHeu).dedup (compute_min_time_per_km gHeu) "B" "A" ≤
        ([segAB].map (fun e => edgeCostSpec cHeu e)).sum) := by
  refine ⟨?_, ?_, ?_, ?_, ?_, ?_, ?_⟩ <;> with_unfolding_all decide

/-- Witness for the C1 amended theorem: with no priority allowance the
assumption holds on gHeu and the heuristic is below the route cost. -/
theorem c1_heuristic_admissible_witness :
    heuristicVal dEHeu (graphNodes gHeu).dedup (compute_min_time_per_km gHeu) "B" "A" ≤
      ([segAB].map (fun e => edgeCostSpec ({} : Convoy) e)).sum :=
  c1_heuristic_admissible_amended gHeu {} dEHeu "B" "A" [segAB]
    (by with_unfolding_all decide) (by with_unfolding_all decide)
    (by with_unfolding_all decide) (by with_unfolding_all decide)
    (by with_unfolding_all decide)
